import Mathlib

/-!
# Shallow embedding of the Oppia release-coordinator features tab

This file models the logic of
`core/templates/pages/release-coordinator-page/features-tab/features-tab.component.ts`.

Modelling choices:
* The data model (`PlatformParameter`, `PlatformParameterRule`,
  `PlatformParameterFilter`, conditions) is translated structurally; only the
  fields the component reads are kept.
* lodash `isEqual` (deep structural equality, order-sensitive on arrays) is
  modelled by decidable equality on the inductive types.
* lodash `cloneDeep` is value copying; for the claims about reference
  freshness (`addNewRuleToTop` / `addNewRuleToBottom`) an explicit heap of
  rule cells is used so that aliasing is observable.
* JavaScript `Array.prototype.splice` is modelled faithfully, including the
  clamping of a negative start index to `max(len + start, 0)` and of a large
  start index to `len`.
* `async`/`await` with thrown errors is modelled by explicit result records:
  the API outcome is an input, and the emitted status messages, the backup
  map and a possibly thrown error are the outputs.
* The `Map` `featureFlagNameToBackupMap` is modelled as an association list
  with unique-key `set` semantics.
-/

/-- The filter types from `PlatformParameterFilterType`. -/
inductive PlatformParameterFilterType where
  | PlatformType
  | AppVersion
  | AppVersionFlavor
deriving DecidableEq, Repr

/-- A condition is an `[operator, operand]` pair of strings. -/
abbrev FilterCondition := String × String

/-- `PlatformParameterFilter`: a typed predicate with a list of conditions. -/
structure PlatformParameterFilter where
  type : PlatformParameterFilterType
  conditions : List FilterCondition
deriving DecidableEq, Repr

/-- `PlatformParameterRule`: filters plus the value returned when they match. -/
structure PlatformParameterRule where
  filters : List PlatformParameterFilter
  valueWhenMatched : Bool
deriving DecidableEq, Repr

/-- The fields of `PlatformParameter` that the component reads. -/
structure PlatformParameter where
  name : String
  featureStage : String
  rules : List PlatformParameterRule
deriving DecidableEq, Repr

/-- `this.defaultNewFilter`: type `PlatformType`, empty condition list. -/
def defaultNewFilter : PlatformParameterFilter :=
  { type := .PlatformType, conditions := [] }

/-- `this.defaultNewRule`: one default filter, `value_when_matched: false`. -/
def defaultNewRule : PlatformParameterRule :=
  { filters := [defaultNewFilter], valueWhenMatched := false }

/-! ## JavaScript `Array.prototype.splice`

`splice(start, deleteCount, ...items)` clamps `start` to
`max(len + start, 0)` when negative and to `len` when it exceeds `len`. -/

/-- The actual start index used by `splice` on an array of length `len`. -/
def spliceStart (len : Nat) (start : Int) : Nat :=
  if start < 0 then ((len : Int) + start).toNat else min start.toNat len

/-- `arr.splice(start, 0, x)`: insert `x` at the clamped start index. -/
def spliceInsert {α : Type} (l : List α) (start : Int) (x : α) : List α :=
  l.take (spliceStart l.length start) ++ x :: l.drop (spliceStart l.length start)

/-- `arr.splice(start, 1)`: remove one element at the clamped start index. -/
def spliceRemoveOne {α : Type} (l : List α) (start : Int) : List α :=
  l.take (spliceStart l.length start) ++ l.drop (spliceStart l.length start + 1)

/-- `removeRule`: `feature.rules.splice(ruleIndex, 1)`, as the new rule list. -/
def removeRule (rules : List PlatformParameterRule) (ruleIndex : Int) :
    List PlatformParameterRule :=
  spliceRemoveOne rules ruleIndex

/-- `removeFilter`: `rule.filters.splice(filterIndex, 1)`. -/
def removeFilter (filters : List PlatformParameterFilter) (filterIndex : Int) :
    List PlatformParameterFilter :=
  spliceRemoveOne filters filterIndex

/-- `moveRuleUp`: read `feature.rules[ruleIndex]`, remove it, then
`feature.rules.splice(ruleIndex - 1, 0, rule)`.  The source reads the rule
before removing it; an out-of-range read yields `undefined` in JS, which the
component never does (the template only offers in-range moves), so the
embedding leaves the list unchanged in that case. -/
def moveRuleUp (rules : List PlatformParameterRule) (ruleIndex : Nat) :
    List PlatformParameterRule :=
  match rules[ruleIndex]? with
  | none => rules
  | some rule => spliceInsert (removeRule rules ruleIndex) ((ruleIndex : Int) - 1) rule

/-- `moveRuleDown`: read `feature.rules[ruleIndex]`, remove it, then
`feature.rules.splice(ruleIndex + 1, 0, rule)`. -/
def moveRuleDown (rules : List PlatformParameterRule) (ruleIndex : Nat) :
    List PlatformParameterRule :=
  match rules[ruleIndex]? with
  | none => rules
  | some rule => spliceInsert (removeRule rules ruleIndex) ((ruleIndex : Int) + 1) rule

/-! ## Server-stage gating -/

/-- `getFeatureValidOnCurrentServer`, as a pure function of the component
field `serverStage` and the `featureStage` of the flag (string comparisons against the
constants `dev` / `test` / `prod`). -/
def getFeatureValidOnCurrentServer (serverStage featureStage : String) : Bool :=
  if serverStage = "dev" then
    true
  else if serverStage = "test" then
    (featureStage = "test" || featureStage = "prod")
  else if serverStage = "prod" then
    (featureStage = "prod")
  else
    false

/-! ## The validator `validateFeatureFlag`

The source walks rules / filters / conditions with `seen` arrays, looks up
duplicates with `findIndex(... isEqual ...)`, pushes a message and `continue`s
on a hit (without registering the duplicate as seen), and registers the
element as seen otherwise. -/

/-- Message `The A-th & B-th rules are identical.` with `a`, `b` 1-based. -/
def ruleDupMsg (a b : Nat) : String :=
  "The " ++ toString a ++ "-th & " ++ toString b ++ "-th rules are identical."

/-- Message for duplicate filters; `ri` is the 0-based rule index and `a`,
`b` are the 1-based filter positions. -/
def filterDupMsg (ri : Nat) (a b : Nat) : String :=
  "In the " ++ toString (ri + 1) ++ "-th rule: the " ++ toString a ++
    "-th & " ++ toString b ++ "-th filters are identical."

/-- Message for duplicate conditions; `ri`, `fi` are the 0-based rule and
filter indices and `a`, `b` the 1-based condition positions. -/
def condDupMsg (ri fi : Nat) (a b : Nat) : String :=
  "In the " ++ toString (ri + 1) ++ "-th rule, " ++ toString (fi + 1) ++
    "-th filter: the " ++ toString a ++ "-th & " ++ toString b ++
    "-th conditions are identical."

/-- `seen.findIndex(s => isEqual(s, c))`: the first index of `c` in the
list, or `none` where JS returns `-1`. -/
def firstEqIdx {α : Type} [DecidableEq α] (l : List α) (c : α) : Option Nat :=
  match l with
  | [] => none
  | x :: rest => if x = c then some 0 else (firstEqIdx rest c).map (· + 1)

/-- The innermost loop over `filter.conditions`: `seen` holds the conditions
already registered, `idx` is the 0-based index of the next condition. -/
def condLoop (ri fi : Nat) (seen : List FilterCondition) (idx : Nat) :
    List FilterCondition → List String
  | [] => []
  | c :: rest =>
    match firstEqIdx seen c with
    | some k => condDupMsg ri fi (k + 1) (idx + 1) :: condLoop ri fi seen (idx + 1) rest
    | none => condLoop ri fi (seen ++ [c]) (idx + 1) rest

/-- The middle loop over `rule.filters`.  On a duplicate the source emits the
message and `continue`s (not descending into the conditions and not pushing
the filter onto `seenFilters`); otherwise it checks the conditions and
registers the filter. -/
def filterLoop (ri : Nat) (seen : List PlatformParameterFilter) (idx : Nat) :
    List PlatformParameterFilter → List String
  | [] => []
  | f :: rest =>
    match firstEqIdx seen f with
    | some k => filterDupMsg ri (k + 1) (idx + 1) :: filterLoop ri seen (idx + 1) rest
    | none =>
      condLoop ri idx [] 0 f.conditions ++ filterLoop ri (seen ++ [f]) (idx + 1) rest

/-- The outer loop over `feature.rules`.  On a duplicate the source emits the
message and `continue`s, so the duplicate rule is neither inspected further
nor pushed onto `seenRules`. -/
def ruleLoop (seen : List PlatformParameterRule) (idx : Nat) :
    List PlatformParameterRule → List String
  | [] => []
  | r :: rest =>
    match firstEqIdx seen r with
    | some k => ruleDupMsg (k + 1) (idx + 1) :: ruleLoop seen (idx + 1) rest
    | none =>
      filterLoop idx [] 0 r.filters ++ ruleLoop (seen ++ [r]) (idx + 1) rest

/-- `validateFeatureFlag`: the collected issue messages. -/
def validateFeatureFlag (feature : PlatformParameter) : List String :=
  ruleLoop [] 0 feature.rules

/-! ## Backup map and change tracking -/

/-- The `featureFlagNameToBackupMap` as an association list (a JS `Map` keeps
one entry per key; `lookupBackup` returns the first binding). -/
abbrev BackupMap := List (String × PlatformParameter)

/-- `featureFlagNameToBackupMap.get(name)`. -/
def lookupBackup : BackupMap → String → Option PlatformParameter
  | [], _ => none
  | (k, v) :: rest, nm => if k = nm then some v else lookupBackup rest nm

/-- `featureFlagNameToBackupMap.set(name, v)`: replace the existing binding
for `name` if present, otherwise append a new one. -/
def setBackup : BackupMap → String → PlatformParameter → BackupMap
  | [], nm, v => [(nm, v)]
  | (k, w) :: rest, nm, v =>
    if k = nm then (nm, v) :: rest else (k, w) :: setBackup rest nm v

/-- `isFeatureFlagChanged`: throws (`Except.error`) when the backup map has
no entry for `feature.name`; otherwise `!isEqual(original.rules,
feature.rules)`. -/
def isFeatureFlagChanged (m : BackupMap) (feature : PlatformParameter) :
    Except String Bool :=
  match lookupBackup m feature.name with
  | none => .error ("Backup not found for feature flag: " ++ feature.name)
  | some original => .ok (! decide (original.rules = feature.rules))

/-- `clearChanges` after the user confirmed: if a backup exists, replace the
rules of the flag by a (deep copy of) the rules of the backup, else do
nothing.  The
`if (backup)` truthiness test is a defined-ness test, since a present map
value is always a truthy object. -/
def clearChanges (m : BackupMap) (featureFlag : PlatformParameter) :
    PlatformParameter :=
  match lookupBackup m featureFlag.name with
  | none => featureFlag
  | some backup => { featureFlag with rules := backup.rules }

/-! ## `updateFeatureFlag` and the bulk default-value save

The `await this.apiService.updateFeatureFlag(...)` outcome is an input of the
model; the function returns the new backup map, the messages emitted through
`setStatusMessage`, and the error it throws, if any. -/

/-- The possible outcomes of the backend call, as the `catch` block
distinguishes them: success, an `HttpErrorResponse` (whose `e.error.error`
body may be absent), or any other thrown value. -/
inductive UpdateOutcome where
  | success
  | httpError (errorBody : Option String)
  | nonHttpFailure
deriving DecidableEq, Repr

/-- JS truthiness of `e.error && e.error.error`: the structured message is
used only when present and non-empty. -/
def structuredMsg : Option String → Option String
  | none => none
  | some s => if s = "" then none else some s

/-- The observable result of one `updateFeatureFlag` call. -/
structure UpdateResult where
  backupMap : BackupMap
  statusMessages : List String
  thrown : Option String
deriving DecidableEq, Repr

/-- `updateFeatureFlag(feature, commitMessage)` under API outcome `outcome`:
on success, set the backup entry to a (deep copy of) the flag and emit
`Saved successfully.`; on an `HttpErrorResponse`, emit the structured server
message when truthy, else the generic message; otherwise throw
`Unexpected error response.`. -/
def updateFeatureFlag (m : BackupMap) (feature : PlatformParameter)
    (_commitMessage : String) (outcome : UpdateOutcome) : UpdateResult :=
  match outcome with
  | .success =>
    { backupMap := setBackup m feature.name feature
      statusMessages := ["Saved successfully."]
      thrown := none }
  | .httpError body =>
    match structuredMsg body with
    | some s =>
      { backupMap := m, statusMessages := ["Update failed: " ++ s], thrown := none }
    | none =>
      { backupMap := m, statusMessages := ["Update failed."], thrown := none }
  | .nonHttpFailure =>
    { backupMap := m, statusMessages := [], thrown := some "Unexpected error response." }

/-- A single-quote character, for building the generated commit messages. -/
def squote : String := String.mk [Char.ofNat 39]

/-- The per-flag commit message generated by `saveDefaultValueToStorage`. -/
def defaultValueCommitMessage (nm : String) : String :=
  "Update default value for " ++ squote ++ nm ++ squote ++ "."

/-- The observable result of a `saveDefaultValueToStorage` run:
`attemptedSaves` records, in order, the `(name, commitMessage)` of every
`updateFeatureFlag` call that was started. -/
structure BulkResult where
  backupMap : BackupMap
  statusMessages : List String
  attemptedSaves : List (String × String)
  thrown : Option String
deriving DecidableEq, Repr

/-- The `for ... of this.featureFlags { await this.updateFeatureFlag(...) }`
loop: strictly sequential, stopping when a call throws. -/
def runBulkSave (m : BackupMap) (api : String → UpdateOutcome) :
    List PlatformParameter → BulkResult
  | [] => { backupMap := m, statusMessages := [], attemptedSaves := [], thrown := none }
  | f :: rest =>
    let cm := defaultValueCommitMessage f.name
    let res := updateFeatureFlag m f cm (api f.name)
    match res.thrown with
    | some e =>
      { backupMap := res.backupMap
        statusMessages := res.statusMessages
        attemptedSaves := [(f.name, cm)]
        thrown := some e }
    | none =>
      let tail := runBulkSave res.backupMap api rest
      { backupMap := tail.backupMap
        statusMessages := res.statusMessages ++ tail.statusMessages
        attemptedSaves := (f.name, cm) :: tail.attemptedSaves
        thrown := tail.thrown }

/-- `saveDefaultValueToStorage`: aborts silently unless the user confirms,
then runs the sequential loop over the loaded flags. -/
def saveDefaultValueToStorage (confirm : Bool) (m : BackupMap)
    (flags : List PlatformParameter) (api : String → UpdateOutcome) : BulkResult :=
  if confirm then runBulkSave m api flags
  else { backupMap := m, statusMessages := [], attemptedSaves := [], thrown := none }

/-! ## Heap model for `addNewRuleToTop` / `addNewRuleToBottom`

`feature.rules.unshift(cloneDeep(this.defaultNewRule))` copies the template
into a fresh object.  To make the freshness observable, rules are stored in a
heap of cells (addresses are indices into `heap`); `feature.rules` and
`this.defaultNewRule` hold addresses, and `cloneDeep` reads the pointed-to
value and allocates a new cell for the copy.  Mutating a rule in place is
`writeRuleCell`. -/

/-- The component state relevant to rule insertion: the heap of rule
objects, the address of `this.defaultNewRule`, and the addresses making up
`feature.rules`. -/
structure TabHeapState where
  heap : List PlatformParameterRule
  defaultNewRuleAddr : Nat
  ruleRefs : List Nat
deriving DecidableEq, Repr

/-- Read the rule object at address `a`. -/
def readRuleCell (heap : List PlatformParameterRule) (a : Nat) :
    Option PlatformParameterRule :=
  heap[a]?

/-- Mutate the rule object at address `a` in place. -/
def writeRuleCell (heap : List PlatformParameterRule) (a : Nat)
    (r : PlatformParameterRule) : List PlatformParameterRule :=
  heap.set a r

/-- `cloneDeep` of the object at address `a`: allocate a fresh cell holding
a copy of its value and return its address.  (The `none` branch is
unreachable when the state is well-formed.) -/
def cloneDeepAlloc (heap : List PlatformParameterRule) (a : Nat) :
    List PlatformParameterRule × Nat :=
  match heap[a]? with
  | none => (heap, heap.length)
  | some r => (heap ++ [r], heap.length)

/-- `addNewRuleToTop`: `feature.rules.unshift(cloneDeep(this.defaultNewRule))`. -/
def addNewRuleToTop (s : TabHeapState) : TabHeapState :=
  let p := cloneDeepAlloc s.heap s.defaultNewRuleAddr
  { s with heap := p.1, ruleRefs := p.2 :: s.ruleRefs }

/-- `addNewRuleToBottom`: `feature.rules.push(cloneDeep(this.defaultNewRule))`. -/
def addNewRuleToBottom (s : TabHeapState) : TabHeapState :=
  let p := cloneDeepAlloc s.heap s.defaultNewRuleAddr
  { s with heap := p.1, ruleRefs := s.ruleRefs ++ [p.2] }

/-- The values of `feature.rules`, dereferencing each address. -/
def derefRules (s : TabHeapState) : List PlatformParameterRule :=
  s.ruleRefs.filterMap (fun a => readRuleCell s.heap a)

/-- Well-formedness: the template address holds the default rule object and
every rule address is allocated. -/
def wfTabHeap (s : TabHeapState) : Prop :=
  readRuleCell s.heap s.defaultNewRuleAddr = some defaultNewRule ∧
    ∀ a ∈ s.ruleRefs, a < s.heap.length

instance (s : TabHeapState) : Decidable (wfTabHeap s) := by
  unfold wfTabHeap; infer_instance

/-! ## Duplicate-freeness predicates used to state the validator claims -/

/-- A filter whose sibling conditions are pairwise structurally distinct. -/
def cleanFilter (f : PlatformParameterFilter) : Prop :=
  f.conditions.Pairwise (· ≠ ·)

/-- A rule whose sibling filters are pairwise distinct and all clean. -/
def cleanRule (r : PlatformParameterRule) : Prop :=
  r.filters.Pairwise (· ≠ ·) ∧ ∀ f ∈ r.filters, cleanFilter f

instance (f : PlatformParameterFilter) : Decidable (cleanFilter f) := by
  unfold cleanFilter; infer_instance

instance (r : PlatformParameterRule) : Decidable (cleanRule r) := by
  unfold cleanRule; infer_instance

/-! ## Concrete values used to instantiate the theorems -/

/-- A platform-type filter with one condition. -/
def filterW1 : PlatformParameterFilter :=
  { type := .PlatformType, conditions := [("=", "Web")] }

/-- An app-version filter with one condition. -/
def filterW2 : PlatformParameterFilter :=
  { type := .AppVersion, conditions := [("=", "1.0.0")] }

/-- A rule with the platform filter, matching to `true`. -/
def ruleW1 : PlatformParameterRule := { filters := [filterW1], valueWhenMatched := true }

/-- A rule with the version filter, matching to `false`. -/
def ruleW2 : PlatformParameterRule := { filters := [filterW2], valueWhenMatched := false }

/-- A rule with both filters. -/
def ruleW3 : PlatformParameterRule :=
  { filters := [filterW1, filterW2], valueWhenMatched := false }

/-- A flag with two distinct rules. -/
def flagW : PlatformParameter := { name := "Foo", featureStage := "dev", rules := [ruleW1, ruleW2] }

/-- The same flag with its rules permuted. -/
def flagPermW : PlatformParameter :=
  { name := "Foo", featureStage := "dev", rules := [ruleW2, ruleW1] }

/-- A second flag. -/
def flagX : PlatformParameter := { name := "Bar", featureStage := "prod", rules := [ruleW3] }

/-- A third flag. -/
def flagY : PlatformParameter := { name := "Baz", featureStage := "test", rules := [] }

/-- A backup map holding `flagW`. -/
def backupW : BackupMap := [("Foo", flagW)]

/-- A well-formed heap state: the template object at address `0`, no rules. -/
def tabW : TabHeapState := { heap := [defaultNewRule], defaultNewRuleAddr := 0, ruleRefs := [] }

/-- An API behaviour in which only the save of flag `Bar` fails with an
unstructured (non-`HttpErrorResponse`) error. -/
def apiW : String → UpdateOutcome :=
  fun nm => if nm = "Bar" then .nonHttpFailure else .success

/-! ## Helper lemmas on `firstEqIdx` and the validator loops -/

theorem firstEqIdx_eq_none {α : Type} [DecidableEq α] {l : List α} {c : α}
    (h : ∀ x ∈ l, x ≠ c) : firstEqIdx l c = none := by
  induction l with
  | nil => rfl
  | cons x rest ih =>
    simp only [firstEqIdx]
    rw [if_neg (h x (by simp)), ih (fun y hy => h y (by simp [hy]))]
    rfl

theorem firstEqIdx_append_first {α : Type} [DecidableEq α] (l₁ l₂ : List α) (c : α)
    (h : ∀ x ∈ l₁, x ≠ c) : firstEqIdx (l₁ ++ c :: l₂) c = some l₁.length := by
  induction l₁ with
  | nil => simp [firstEqIdx]
  | cons x rest ih =>
    simp only [List.cons_append, firstEqIdx, List.append_eq]
    rw [if_neg (h x (by simp)), ih (fun y hy => h y (by simp [hy]))]
    rfl

theorem condLoop_eq_nil (ri fi : Nat) (conds : List FilterCondition) :
    ∀ (seen : List FilterCondition) (idx : Nat),
      (∀ c ∈ conds, c ∉ seen) → conds.Pairwise (· ≠ ·) →
      condLoop ri fi seen idx conds = [] := by
  induction conds with
  | nil => intro seen idx _ _; rfl
  | cons c rest ih =>
    intro seen idx hfresh hpw
    have hc : firstEqIdx seen c = none :=
      firstEqIdx_eq_none (fun x hx hxc => hfresh c (by simp) (hxc ▸ hx))
    simp only [condLoop, hc]
    refine ih (seen ++ [c]) (idx + 1) ?_ (List.pairwise_cons.mp hpw).2
    intro d hd
    simp only [List.mem_append, List.mem_singleton]
    rintro (hds | hdc)
    · exact hfresh d (by simp [hd]) hds
    · exact (List.pairwise_cons.mp hpw).1 d hd hdc.symm

theorem filterLoop_eq_nil (ri : Nat) (filters : List PlatformParameterFilter) :
    ∀ (seen : List PlatformParameterFilter) (idx : Nat),
      (∀ f ∈ filters, f ∉ seen) → filters.Pairwise (· ≠ ·) →
      (∀ f ∈ filters, cleanFilter f) →
      filterLoop ri seen idx filters = [] := by
  induction filters with
  | nil => intro seen idx _ _ _; rfl
  | cons f rest ih =>
    intro seen idx hfresh hpw hclean
    have hf : firstEqIdx seen f = none :=
      firstEqIdx_eq_none (fun x hx hxf => hfresh f (by simp) (hxf ▸ hx))
    simp only [filterLoop, hf]
    rw [condLoop_eq_nil ri idx f.conditions [] 0 (by simp) (hclean f (by simp))]
    rw [List.nil_append]
    refine ih (seen ++ [f]) (idx + 1) ?_ (List.pairwise_cons.mp hpw).2
      (fun g hg => hclean g (by simp [hg]))
    intro g hg
    simp only [List.mem_append, List.mem_singleton]
    rintro (hgs | hgf)
    · exact hfresh g (by simp [hg]) hgs
    · exact (List.pairwise_cons.mp hpw).1 g hg hgf.symm

theorem ruleLoop_append (L₁ : List PlatformParameterRule) :
    ∀ (L₂ seen : List PlatformParameterRule) (idx : Nat),
      (∀ r ∈ L₁, r ∉ seen) → L₁.Pairwise (· ≠ ·) → (∀ r ∈ L₁, cleanRule r) →
      ruleLoop seen idx (L₁ ++ L₂) = ruleLoop (seen ++ L₁) (idx + L₁.length) L₂ := by
  induction L₁ with
  | nil => intro L₂ seen idx _ _ _; simp
  | cons r rest ih =>
    intro L₂ seen idx hfresh hpw hclean
    have hr : firstEqIdx seen r = none :=
      firstEqIdx_eq_none (fun x hx hxr => hfresh r (by simp) (hxr ▸ hx))
    simp only [List.cons_append, ruleLoop, hr, List.append_eq]
    have hcr := hclean r (by simp)
    rw [filterLoop_eq_nil idx r.filters [] 0 (by simp) hcr.1 hcr.2, List.nil_append]
    rw [ih L₂ (seen ++ [r]) (idx + 1) ?_ (List.pairwise_cons.mp hpw).2
      (fun g hg => hclean g (by simp [hg]))]
    · rw [List.append_assoc, List.singleton_append]
      simp only [List.length_cons]
      congr 1
      omega
    · intro g hg
      simp only [List.mem_append, List.mem_singleton]
      rintro (hgs | hgr)
      · exact hfresh g (by simp [hg]) hgs
      · exact (List.pairwise_cons.mp hpw).1 g hg hgr.symm

theorem ruleLoop_eq_nil (L seen : List PlatformParameterRule) (idx : Nat)
    (hfresh : ∀ r ∈ L, r ∉ seen) (hpw : L.Pairwise (· ≠ ·))
    (hclean : ∀ r ∈ L, cleanRule r) :
    ruleLoop seen idx L = [] := by
  have h := ruleLoop_append L [] seen idx hfresh hpw hclean
  simpa using h

theorem ruleLoop_dup_segment (A B T : List PlatformParameterRule)
    (r : PlatformParameterRule)
    (hpwA : A.Pairwise (· ≠ ·)) (hpwB : B.Pairwise (· ≠ ·))
    (hAB : ∀ a ∈ A, ∀ b ∈ B, a ≠ b)
    (hrA : r ∉ A) (hrB : r ∉ B)
    (hcA : ∀ x ∈ A, cleanRule x) (hcB : ∀ x ∈ B, cleanRule x) (hcr : cleanRule r) :
    ruleLoop [] 0 (A ++ (r :: (B ++ (r :: T)))) =
      ruleDupMsg (A.length + 1) (A.length + B.length + 2) ::
        ruleLoop (A ++ (r :: B)) (A.length + B.length + 2) T := by
  rw [ruleLoop_append A (r :: (B ++ (r :: T))) [] 0 (by simp) hpwA hcA]
  simp only [List.nil_append, Nat.zero_add]
  have hrAnone : firstEqIdx A r = none :=
    firstEqIdx_eq_none (fun x hx hxr => hrA (hxr ▸ hx))
  simp only [ruleLoop, hrAnone]
  rw [filterLoop_eq_nil A.length r.filters [] 0 (by simp) hcr.1 hcr.2, List.nil_append]
  rw [ruleLoop_append B (r :: T) (A ++ [r]) (A.length + 1)
    (fun b hb => by
      simp only [List.mem_append, List.mem_singleton]
      rintro (hbA | hbr)
      · exact hAB b hbA b hb rfl
      · exact hrB (hbr ▸ hb)) hpwB hcB]
  have hfind : firstEqIdx (A ++ [r] ++ B) r = some A.length := by
    rw [List.append_assoc, List.singleton_append]
    exact firstEqIdx_append_first A B r (fun x hx hxr => hrA (hxr ▸ hx))
  simp only [ruleLoop, hfind]
  rw [List.append_assoc, List.singleton_append]
  have harith : A.length + 1 + B.length + 1 = A.length + B.length + 2 := by omega
  rw [harith]

/-! ## Helper lemmas on the backup map, the save operations and the heap -/

theorem lookupBackup_setBackup (m : BackupMap) (nm : String) (v : PlatformParameter) :
    lookupBackup (setBackup m nm v) nm = some v := by
  induction m with
  | nil => simp [setBackup, lookupBackup]
  | cons kv rest ih =>
    obtain ⟨k, w⟩ := kv
    by_cases hk : k = nm
    · simp [setBackup, lookupBackup, hk]
    · simp [setBackup, lookupBackup, hk, ih]

theorem updateFeatureFlag_thrown_eq_none (m : BackupMap) (f : PlatformParameter)
    (cm : String) (o : UpdateOutcome) (h : o ≠ .nonHttpFailure) :
    (updateFeatureFlag m f cm o).thrown = none := by
  cases o with
  | success => rfl
  | httpError body =>
    simp only [updateFeatureFlag]
    cases structuredMsg body <;> rfl
  | nonHttpFailure => exact absurd rfl h

theorem runBulkSave_all_ok (api : String → UpdateOutcome)
    (flags : List PlatformParameter) :
    ∀ m : BackupMap, (∀ g ∈ flags, api g.name ≠ .nonHttpFailure) →
      (runBulkSave m api flags).attemptedSaves =
          flags.map (fun g => (g.name, defaultValueCommitMessage g.name)) ∧
        (runBulkSave m api flags).thrown = none := by
  induction flags with
  | nil => intro m _; exact ⟨rfl, rfl⟩
  | cons f rest ih =>
    intro m h
    have hf : (updateFeatureFlag m f (defaultValueCommitMessage f.name)
        (api f.name)).thrown = none :=
      updateFeatureFlag_thrown_eq_none _ _ _ _ (h f (by simp))
    have ihres := ih (updateFeatureFlag m f (defaultValueCommitMessage f.name)
        (api f.name)).backupMap (fun g hg => h g (by simp [hg]))
    simp only [runBulkSave, hf, List.map_cons]
    exact ⟨by rw [ihres.1], by rw [ihres.2]⟩

theorem runBulkSave_stops (api : String → UpdateOutcome)
    (P : List PlatformParameter) :
    ∀ (m : BackupMap) (f : PlatformParameter) (S : List PlatformParameter),
      (∀ g ∈ P, api g.name ≠ .nonHttpFailure) → api f.name = .nonHttpFailure →
      (runBulkSave m api (P ++ f :: S)).attemptedSaves =
          P.map (fun g => (g.name, defaultValueCommitMessage g.name)) ++
            [(f.name, defaultValueCommitMessage f.name)] ∧
        (runBulkSave m api (P ++ f :: S)).thrown = some "Unexpected error response." := by
  induction P with
  | nil =>
    intro m f S _ hf
    simp [runBulkSave, updateFeatureFlag, hf]
  | cons g P' ih =>
    intro m f S h hf
    have hg : (updateFeatureFlag m g (defaultValueCommitMessage g.name)
        (api g.name)).thrown = none :=
      updateFeatureFlag_thrown_eq_none _ _ _ _ (h g (by simp))
    have ihres := ih (updateFeatureFlag m g (defaultValueCommitMessage g.name)
        (api g.name)).backupMap f S (fun x hx => h x (by simp [hx])) hf
    simp only [List.cons_append, runBulkSave, hg, List.map_cons, List.append_assoc,
      List.append_eq]
    constructor
    · rw [ihres.1]
    · rw [ihres.2]

theorem filterMap_getElem_append (heap ext : List PlatformParameterRule)
    (refs : List Nat) (h : ∀ a ∈ refs, a < heap.length) :
    refs.filterMap (fun a => (heap ++ ext)[a]?) = refs.filterMap (fun a => heap[a]?) := by
  induction refs with
  | nil => rfl
  | cons a rest ih =>
    have ha : (heap ++ ext)[a]? = heap[a]? := by
      rw [List.getElem?_append]
      simp [h a (by simp)]
    simp only [List.filterMap_cons, ha, ih (fun b hb => h b (by simp [hb]))]

theorem readRuleCell_lt (heap : List PlatformParameterRule) (a : Nat)
    (r : PlatformParameterRule) (h : readRuleCell heap a = some r) : a < heap.length := by
  by_contra hout
  rw [readRuleCell, List.getElem?_eq_none (by omega)] at h
  exact Option.noConfusion h

/-! ## Helper lemmas on the splice model -/

theorem spliceStart_natCast (len n : Nat) : spliceStart len (n : Int) = min n len := by
  unfold spliceStart
  rw [if_neg (by omega), Int.toNat_natCast]

theorem spliceRemoveOne_natCast {α : Type} (l : List α) (n : Nat) :
    spliceRemoveOne l (n : Int) = l.take (min n l.length) ++ l.drop (min n l.length + 1) := by
  unfold spliceRemoveOne
  rw [spliceStart_natCast]

theorem spliceInsert_natCast {α : Type} (l : List α) (n : Nat) (x : α) :
    spliceInsert l (n : Int) x = l.take (min n l.length) ++ x :: l.drop (min n l.length) := by
  unfold spliceInsert
  rw [spliceStart_natCast]

/-! ## Claim theorems -/

/-- C7: `getFeatureValidOnCurrentServer` is a pure predicate over the server
stage and the stage of the flag: a `dev` server accepts every flag, a `test`
server accepts exactly the flags staged `test` or `prod`, and a `prod`
server accepts exactly the flags staged `prod`. -/
theorem getFeatureValidOnCurrentServer_stages :
    (∀ fs : String, getFeatureValidOnCurrentServer "dev" fs = true) ∧
    (∀ fs : String,
      getFeatureValidOnCurrentServer "test" fs = true ↔ fs = "test" ∨ fs = "prod") ∧
    (∀ fs : String, getFeatureValidOnCurrentServer "prod" fs = true ↔ fs = "prod") := by
  refine ⟨fun fs => ?_, fun fs => ?_, fun fs => ?_⟩ <;>
    simp [getFeatureValidOnCurrentServer]

/-- C6: for a rule sequence with two adjacent rules `x`, `y` at 0-based
positions `A.length` and `A.length + 1`, `moveRuleUp` at the interior index
`A.length + 1` swaps the rule with its predecessor and `moveRuleDown` at the
index `A.length` (any index up to `n - 2`) swaps it with its successor; all
other rules keep their values and relative order. -/
theorem moveRule_adjacent_swap (A B : List PlatformParameterRule)
    (x y : PlatformParameterRule) :
    moveRuleUp (A ++ (x :: (y :: B))) (A.length + 1) = A ++ (y :: (x :: B)) ∧
    moveRuleDown (A ++ (x :: (y :: B))) A.length = A ++ (y :: (x :: B)) := by
  have hlen : (A ++ (x :: (y :: B))).length = A.length + (B.length + 2) := by
    simp
  constructor
  · have hget : (A ++ (x :: (y :: B)))[A.length + 1]? = some y := by
      rw [List.getElem?_append_right (by omega)]
      simp
    have hrem : removeRule (A ++ (x :: (y :: B))) ((A.length + 1 : Nat) : Int) =
        A ++ (x :: B) := by
      rw [removeRule, spliceRemoveOne_natCast]
      have hmin : min (A.length + 1) (A ++ (x :: (y :: B))).length = A.length + 1 := by
        rw [hlen]; omega
      rw [hmin]
      have h1 : (A ++ (x :: (y :: B))).take (A.length + 1) = A ++ [x] := by
        rw [List.take_append 1]; rfl
      have h2 : (A ++ (x :: (y :: B))).drop (A.length + 1 + 1) = B := by
        rw [show A.length + 1 + 1 = A.length + 2 from rfl, List.drop_append 2]; rfl
      rw [h1, h2, List.append_assoc, List.singleton_append]
    simp only [moveRuleUp, hget]
    rw [hrem]
    have hcast : ((A.length + 1 : Nat) : Int) - 1 = ((A.length : Nat) : Int) := by
      push_cast; ring
    rw [hcast, spliceInsert_natCast]
    have hmin2 : min A.length (A ++ (x :: B)).length = A.length := by simp
    rw [hmin2, List.take_left, List.drop_left]
  · have hget : (A ++ (x :: (y :: B)))[A.length]? = some x := by
      rw [List.getElem?_append_right (by omega)]
      simp
    have hrem : removeRule (A ++ (x :: (y :: B))) ((A.length : Nat) : Int) =
        A ++ (y :: B) := by
      rw [removeRule, spliceRemoveOne_natCast]
      have hmin : min A.length (A ++ (x :: (y :: B))).length = A.length := by simp
      rw [hmin, List.take_left]
      have h2 : (A ++ (x :: (y :: B))).drop (A.length + 1) = y :: B := by
        rw [List.drop_append 1]; rfl
      rw [h2]
    simp only [moveRuleDown, hget]
    rw [hrem]
    have hcast : ((A.length : Nat) : Int) + 1 = ((A.length + 1 : Nat) : Int) := by
      push_cast; ring
    rw [hcast, spliceInsert_natCast]
    have hmin2 : min (A.length + 1) (A ++ (y :: B)).length = A.length + 1 := by
      simp
    rw [hmin2]
    have h1 : (A ++ (y :: B)).take (A.length + 1) = A ++ [y] := by
      rw [List.take_append 1]; rfl
    have h2 : (A ++ (y :: B)).drop (A.length + 1) = B := by
      rw [List.drop_append 1]; rfl
    rw [h1, h2, List.append_assoc, List.singleton_append]

/-- C8: a flag in which no two sibling rules, no two sibling filters within
a rule, and no two sibling conditions within a filter are structurally equal
validates without issues.  The embedding of `validateFeatureFlag` is a pure
function of the flag, so it cannot mutate its input. -/
theorem validateFeatureFlag_no_duplicates (feature : PlatformParameter)
    (hpw : feature.rules.Pairwise (· ≠ ·))
    (hclean : ∀ r ∈ feature.rules, cleanRule r) :
    validateFeatureFlag feature = [] := by
  unfold validateFeatureFlag
  exact ruleLoop_eq_nil feature.rules [] 0 (by simp) hpw hclean

/-- Witness for C8 at a concrete duplicate-free flag. -/
theorem validateFeatureFlag_no_duplicates_witness :
    (flagW.rules.Pairwise (· ≠ ·) ∧ ∀ r ∈ flagW.rules, cleanRule r) ∧
      validateFeatureFlag flagW = [] :=
  ⟨⟨by decide, by decide⟩,
    validateFeatureFlag_no_duplicates flagW (by decide) (by decide)⟩

/-- C1: with two identical rules `r` at 1-based positions `|A| + 1` and
`|A| + |B| + 2` and everything else distinct, the validator reports exactly
one issue naming those positions and nothing about the filters
or conditions; and (second conjunct) with a third identical rule, the third
occurrence is reported as a duplicate of the first occurrence (the duplicate
is registered as seen only once), giving exactly the two issues
`(i, j)` and `(i, k)`. -/
theorem validateFeatureFlag_duplicate_rules :
    (∀ (nm st : String) (A B C : List PlatformParameterRule)
        (r : PlatformParameterRule),
      (A ++ B ++ C).Pairwise (· ≠ ·) → r ∉ A → r ∉ B → r ∉ C →
      (∀ x ∈ A ++ B ++ C, cleanRule x) → cleanRule r →
      validateFeatureFlag ⟨nm, st, A ++ (r :: (B ++ (r :: C)))⟩ =
        [ruleDupMsg (A.length + 1) (A.length + B.length + 2)]) ∧
    (∀ (nm st : String) (A B C D : List PlatformParameterRule)
        (r : PlatformParameterRule),
      (A ++ B ++ C ++ D).Pairwise (· ≠ ·) → r ∉ A → r ∉ B → r ∉ C → r ∉ D →
      (∀ x ∈ A ++ B ++ C ++ D, cleanRule x) → cleanRule r →
      validateFeatureFlag ⟨nm, st, A ++ (r :: (B ++ (r :: (C ++ (r :: D)))))⟩ =
        [ruleDupMsg (A.length + 1) (A.length + B.length + 2),
          ruleDupMsg (A.length + 1) (A.length + B.length + C.length + 3)]) := by
  constructor
  · intro nm st A B C r hpw hrA hrB hrC hclean hcr
    rw [List.pairwise_append] at hpw
    obtain ⟨hpwAB, hpwC, hABC⟩ := hpw
    rw [List.pairwise_append] at hpwAB
    obtain ⟨hpwA, hpwB, hAB⟩ := hpwAB
    have hcA : ∀ x ∈ A, cleanRule x := fun x hx => hclean x (by simp [hx])
    have hcB : ∀ x ∈ B, cleanRule x := fun x hx => hclean x (by simp [hx])
    have hcC : ∀ x ∈ C, cleanRule x := fun x hx => hclean x (by simp [hx])
    show ruleLoop [] 0 (A ++ (r :: (B ++ (r :: C)))) = _
    rw [ruleLoop_dup_segment A B C r hpwA hpwB hAB hrA hrB hcA hcB hcr]
    rw [ruleLoop_eq_nil C (A ++ (r :: B)) (A.length + B.length + 2)
      (fun c hc => by
        simp only [List.mem_append, List.mem_cons]
        rintro (h1 | h2 | h3)
        · exact hABC c (List.mem_append.mpr (Or.inl h1)) c hc rfl
        · exact hrC (h2 ▸ hc)
        · exact hABC c (List.mem_append.mpr (Or.inr h3)) c hc rfl)
      hpwC hcC]
  · intro nm st A B C D r hpw hrA hrB hrC hrD hclean hcr
    rw [List.pairwise_append] at hpw
    obtain ⟨hpwABC, hpwD, hABCD⟩ := hpw
    rw [List.pairwise_append] at hpwABC
    obtain ⟨hpwAB, hpwC, hABC⟩ := hpwABC
    rw [List.pairwise_append] at hpwAB
    obtain ⟨hpwA, hpwB, hAB⟩ := hpwAB
    have hcA : ∀ x ∈ A, cleanRule x := fun x hx => hclean x (by simp [hx])
    have hcB : ∀ x ∈ B, cleanRule x := fun x hx => hclean x (by simp [hx])
    have hcC : ∀ x ∈ C, cleanRule x := fun x hx => hclean x (by simp [hx])
    have hcD : ∀ x ∈ D, cleanRule x := fun x hx => hclean x (by simp [hx])
    show ruleLoop [] 0 (A ++ (r :: (B ++ (r :: (C ++ (r :: D)))))) = _
    rw [ruleLoop_dup_segment A B (C ++ (r :: D)) r hpwA hpwB hAB hrA hrB hcA hcB hcr]
    rw [ruleLoop_append C (r :: D) (A ++ (r :: B)) (A.length + B.length + 2)
      (fun c hc => by
        simp only [List.mem_append, List.mem_cons]
        rintro (h1 | h2 | h3)
        · exact hABC c (List.mem_append.mpr (Or.inl h1)) c hc rfl
        · exact hrC (h2 ▸ hc)
        · exact hABC c (List.mem_append.mpr (Or.inr h3)) c hc rfl)
      hpwC hcC]
    have hfind : firstEqIdx ((A ++ (r :: B)) ++ C) r = some A.length := by
      rw [List.append_assoc, List.cons_append]
      exact firstEqIdx_append_first A (B ++ C) r (fun x hx hxr => hrA (hxr ▸ hx))
    simp only [ruleLoop, hfind]
    rw [ruleLoop_eq_nil D ((A ++ (r :: B)) ++ C) (A.length + B.length + 2 + C.length + 1)
      (fun d hd => by
        simp only [List.mem_append, List.mem_cons]
        rintro ((h1 | h2 | h3) | h4)
        · exact hABCD d (by simp [h1]) d hd rfl
        · exact hrD (h2 ▸ hd)
        · exact hABCD d (by simp [h3]) d hd rfl
        · exact hABCD d (by simp [h4]) d hd rfl)
      hpwD hcD]
    have harith : A.length + B.length + 2 + C.length + 1 =
        A.length + B.length + C.length + 3 := by omega
    rw [harith]

/-- Witness for C1: both scenarios at concrete flags. -/
theorem validateFeatureFlag_duplicate_rules_witness :
    validateFeatureFlag ⟨"f", "dev", [ruleW1, ruleW2, ruleW1]⟩ = [ruleDupMsg 1 3] ∧
      validateFeatureFlag ⟨"f", "dev", [ruleW1, ruleW2, ruleW1, ruleW3, ruleW1]⟩ =
        [ruleDupMsg 1 3, ruleDupMsg 1 5] := by
  constructor
  · exact validateFeatureFlag_duplicate_rules.1 "f" "dev" [] [ruleW2] [] ruleW1
      (by decide) (by decide) (by decide) (by decide) (by decide) (by decide)
  · exact validateFeatureFlag_duplicate_rules.2 "f" "dev" [] [ruleW2] [ruleW3] [] ruleW1
      (by decide) (by decide) (by decide) (by decide) (by decide) (by decide) (by decide)

/-- C9: moving the last rule down leaves the sequence unchanged (the insert
position clamps to the end), and moving the first rule up with `n ≥ 2`
produces `r1, ..., r(n-2), r0, r(n-1)` — unchanged for `n = 2`, but for
`n ≥ 3` the first rule lands at the second-to-last position because the
splice at `-1` inserts before the last element. -/
theorem moveRule_boundary_behavior :
    (∀ (rules : List PlatformParameterRule) (x : PlatformParameterRule),
      moveRuleDown (rules ++ [x]) rules.length = rules ++ [x]) ∧
    (∀ (x : PlatformParameterRule) (M : List PlatformParameterRule)
        (z : PlatformParameterRule),
      moveRuleUp (x :: (M ++ [z])) 0 = M ++ (x :: [z])) := by
  constructor
  · intro rules x
    have hget : (rules ++ [x])[rules.length]? = some x := by simp
    have hrem : removeRule (rules ++ [x]) ((rules.length : Nat) : Int) = rules := by
      rw [removeRule, spliceRemoveOne_natCast]
      have hmin : min rules.length (rules ++ [x]).length = rules.length := by simp
      rw [hmin, List.take_left]
      have h2 : (rules ++ [x]).drop (rules.length + 1) = [] := by
        rw [List.drop_append 1]; rfl
      rw [h2, List.append_nil]
    simp only [moveRuleDown, hget]
    rw [hrem]
    have hcast : ((rules.length : Nat) : Int) + 1 = ((rules.length + 1 : Nat) : Int) := by
      push_cast; ring
    rw [hcast, spliceInsert_natCast]
    have hmin2 : min (rules.length + 1) rules.length = rules.length := by omega
    rw [hmin2, List.take_length, List.drop_length]
  · intro x M z
    have hget : (x :: (M ++ [z]))[0]? = some x := by simp
    have hrem : removeRule (x :: (M ++ [z])) ((0 : Nat) : Int) = M ++ [z] := by
      rw [removeRule, spliceRemoveOne_natCast]
      simp
    simp only [moveRuleUp, hget]
    rw [hrem]
    have hneg : spliceInsert (M ++ [z]) (((0 : Nat) : Int) - 1) x = M ++ (x :: [z]) := by
      unfold spliceInsert
      have hs : spliceStart (M ++ [z]).length (((0 : Nat) : Int) - 1) = M.length := by
        unfold spliceStart
        rw [if_pos (by omega)]
        simp only [List.length_append, List.length_cons, List.length_nil]
        omega
      rw [hs, List.take_left, List.drop_left]
    rw [hneg]

/-- C2: `isFeatureFlagChanged` throws when the backup map has no entry for
the name of the flag; with a backup entry it returns `true` exactly when the
current rules differ from the backed-up rules under order-sensitive deep
structural equality (list equality element-for-element, in order). -/
theorem isFeatureFlagChanged_spec (m : BackupMap) (feature : PlatformParameter) :
    (lookupBackup m feature.name = none →
      isFeatureFlagChanged m feature =
        .error ("Backup not found for feature flag: " ++ feature.name)) ∧
    (∀ original, lookupBackup m feature.name = some original →
      ((isFeatureFlagChanged m feature = .ok true ↔ original.rules ≠ feature.rules) ∧
        (isFeatureFlagChanged m feature = .ok false ↔ original.rules = feature.rules))) := by
  constructor
  · intro h
    unfold isFeatureFlagChanged
    rw [h]
  · intro original h
    unfold isFeatureFlagChanged
    rw [h]
    by_cases heq : original.rules = feature.rules <;> simp [heq]

/-- Witness for C2: the missing-backup error at a concrete flag, and a
concrete changed flag whose rules are a permutation of the backup (showing
the comparison is order-sensitive). -/
theorem isFeatureFlagChanged_witness :
    (lookupBackup backupW flagPermW.name = some flagW ∧
      isFeatureFlagChanged backupW flagPermW = .ok true) ∧
    (lookupBackup [] flagW.name = none ∧
      isFeatureFlagChanged [] flagW =
        .error ("Backup not found for feature flag: " ++ flagW.name)) := by
  refine ⟨⟨by decide, ?_⟩, ⟨rfl, ?_⟩⟩
  · exact ((isFeatureFlagChanged_spec backupW flagPermW).2 flagW (by decide)).1.mpr
      (by decide)
  · exact (isFeatureFlagChanged_spec [] flagW).1 rfl

/-- C3: `updateFeatureFlag` on success stores a copy of the saved flag in
the backup map and emits the success notification; an `HttpErrorResponse`
with a truthy structured message surfaces it verbatim, one without surfaces
the generic `Update failed.`; any other failure is re-raised and leaves the
backup map unchanged with no notification. -/
theorem updateFeatureFlag_spec (m : BackupMap) (feature : PlatformParameter)
    (cm : String) :
    (updateFeatureFlag m feature cm .success =
        { backupMap := setBackup m feature.name feature
          statusMessages := ["Saved successfully."]
          thrown := none } ∧
      lookupBackup (updateFeatureFlag m feature cm .success).backupMap feature.name =
        some feature) ∧
    (∀ s : String, s ≠ "" →
      updateFeatureFlag m feature cm (.httpError (some s)) =
        { backupMap := m, statusMessages := ["Update failed: " ++ s], thrown := none }) ∧
    (updateFeatureFlag m feature cm (.httpError none) =
      { backupMap := m, statusMessages := ["Update failed."], thrown := none }) ∧
    (updateFeatureFlag m feature cm (.httpError (some "")) =
      { backupMap := m, statusMessages := ["Update failed."], thrown := none }) ∧
    (updateFeatureFlag m feature cm .nonHttpFailure =
      { backupMap := m, statusMessages := [], thrown := some "Unexpected error response." }) := by
  refine ⟨⟨rfl, ?_⟩, fun s hs => ?_, rfl, ?_, rfl⟩
  · exact lookupBackup_setBackup m feature.name feature
  · simp [updateFeatureFlag, structuredMsg, hs]
  · simp [updateFeatureFlag, structuredMsg]

/-- Witness for C3 at a concrete structured server error. -/
theorem updateFeatureFlag_witness :
    updateFeatureFlag [] flagW "cm" (.httpError (some "boom")) =
      { backupMap := [], statusMessages := ["Update failed: boom"], thrown := none } :=
  (updateFeatureFlag_spec [] flagW "cm").2.1 "boom" (by decide)

/-- C4: the bulk default-value save visits the loaded flags in list order
with the generated per-flag commit messages; when the save of some flag
fails unrecoverably, every earlier save was attempted (in order) and no
later one is, and the failure propagates; when no save fails unrecoverably,
every flag is saved and nothing is thrown. -/
theorem saveDefaultValueToStorage_spec :
    (∀ (m : BackupMap) (api : String → UpdateOutcome) (P S : List PlatformParameter)
        (f : PlatformParameter),
      (∀ g ∈ P, api g.name ≠ .nonHttpFailure) → api f.name = .nonHttpFailure →
      (saveDefaultValueToStorage true m (P ++ (f :: S)) api).attemptedSaves =
          P.map (fun g => (g.name, defaultValueCommitMessage g.name)) ++
            [(f.name, defaultValueCommitMessage f.name)] ∧
        (saveDefaultValueToStorage true m (P ++ (f :: S)) api).thrown =
          some "Unexpected error response.") ∧
    (∀ (m : BackupMap) (api : String → UpdateOutcome) (flags : List PlatformParameter),
      (∀ g ∈ flags, api g.name ≠ .nonHttpFailure) →
      (saveDefaultValueToStorage true m flags api).attemptedSaves =
          flags.map (fun g => (g.name, defaultValueCommitMessage g.name)) ∧
        (saveDefaultValueToStorage true m flags api).thrown = none) := by
  constructor
  · intro m api P S f hP hf
    unfold saveDefaultValueToStorage
    rw [if_pos rfl]
    exact runBulkSave_stops api P m f S hP hf
  · intro m api flags h
    unfold saveDefaultValueToStorage
    rw [if_pos rfl]
    exact runBulkSave_all_ok api flags m h

/-- Witness for C4: three flags, the second of which fails unrecoverably:
the first save completes, the third is never attempted. -/
theorem saveDefaultValueToStorage_witness :
    (saveDefaultValueToStorage true [] [flagW, flagX, flagY] apiW).attemptedSaves =
        [("Foo", defaultValueCommitMessage "Foo"),
          ("Bar", defaultValueCommitMessage "Bar")] ∧
      (saveDefaultValueToStorage true [] [flagW, flagX, flagY] apiW).thrown =
        some "Unexpected error response." :=
  saveDefaultValueToStorage_spec.1 [] apiW [flagW] [flagY] flagX (by decide) (by decide)

/-- C10: with no backup entry for the name of the flag, `clearChanges` (after
confirmation) is a silent no-op — unlike `isFeatureFlagChanged`, which
throws in that situation; with a backup entry it replaces the rules of the
flag
by a copy of the backed-up rules. -/
theorem clearChanges_spec (m : BackupMap) (f : PlatformParameter) :
    (lookupBackup m f.name = none →
      clearChanges m f = f ∧
        isFeatureFlagChanged m f =
          .error ("Backup not found for feature flag: " ++ f.name)) ∧
    (∀ b, lookupBackup m f.name = some b →
      clearChanges m f = { f with rules := b.rules }) := by
  constructor
  · intro h
    unfold clearChanges isFeatureFlagChanged
    rw [h]
    exact ⟨rfl, rfl⟩
  · intro b h
    unfold clearChanges
    rw [h]

/-- Witness for C10: no-op without a backup; restore from a backup. -/
theorem clearChanges_witness :
    (clearChanges [] flagW = flagW ∧
        isFeatureFlagChanged [] flagW =
          .error ("Backup not found for feature flag: " ++ flagW.name)) ∧
      clearChanges backupW flagPermW = { flagPermW with rules := flagW.rules } :=
  ⟨(clearChanges_spec [] flagW).1 rfl,
    (clearChanges_spec backupW flagPermW).2 flagW (by decide)⟩

/-- C5: `addNewRuleToTop` prepends and `addNewRuleToBottom` appends a fresh
deep copy of the default rule (one `PlatformType` filter, no conditions,
`valueWhenMatched = false`), leaving the values and order of all existing
rules unchanged; the inserted cells are fresh addresses, so mutating one
inserted rule changes neither another inserted rule nor the shared
`defaultNewRule` template. -/
theorem addNewRule_spec (s : TabHeapState) (hw : wfTabHeap s) :
    derefRules (addNewRuleToTop s) = defaultNewRule :: derefRules s ∧
    derefRules (addNewRuleToBottom s) = derefRules s ++ [defaultNewRule] ∧
    (addNewRuleToTop (addNewRuleToTop s)).ruleRefs =
      (s.heap.length + 1) :: (s.heap.length :: s.ruleRefs) ∧
    s.defaultNewRuleAddr < s.heap.length ∧
    s.heap.length ∉ s.ruleRefs ∧
    (∀ r : PlatformParameterRule,
      readRuleCell (writeRuleCell (addNewRuleToTop (addNewRuleToTop s)).heap
          s.heap.length r) s.heap.length = some r ∧
      readRuleCell (writeRuleCell (addNewRuleToTop (addNewRuleToTop s)).heap
          s.heap.length r) (s.heap.length + 1) = some defaultNewRule ∧
      readRuleCell (writeRuleCell (addNewRuleToTop (addNewRuleToTop s)).heap
          s.heap.length r) s.defaultNewRuleAddr = some defaultNewRule) := by
  obtain ⟨hdef, hrefs⟩ := hw
  have hlt : s.defaultNewRuleAddr < s.heap.length := readRuleCell_lt _ _ _ hdef
  rw [readRuleCell] at hdef
  have hclone : cloneDeepAlloc s.heap s.defaultNewRuleAddr =
      (s.heap ++ [defaultNewRule], s.heap.length) := by
    unfold cloneDeepAlloc
    rw [hdef]
  have htop : addNewRuleToTop s =
      ⟨s.heap ++ [defaultNewRule], s.defaultNewRuleAddr,
        s.heap.length :: s.ruleRefs⟩ := by
    unfold addNewRuleToTop
    rw [hclone]
  have hbot : addNewRuleToBottom s =
      ⟨s.heap ++ [defaultNewRule], s.defaultNewRuleAddr,
        s.ruleRefs ++ [s.heap.length]⟩ := by
    unfold addNewRuleToBottom
    rw [hclone]
  have hdef1 : (s.heap ++ [defaultNewRule])[s.defaultNewRuleAddr]? =
      some defaultNewRule := by
    rw [List.getElem?_append]
    simp only [hlt, if_pos]
    exact hdef
  have hclone1 : cloneDeepAlloc (s.heap ++ [defaultNewRule]) s.defaultNewRuleAddr =
      ((s.heap ++ [defaultNewRule]) ++ [defaultNewRule], s.heap.length + 1) := by
    unfold cloneDeepAlloc
    rw [hdef1]
    simp
  have htop2 : addNewRuleToTop (addNewRuleToTop s) =
      ⟨(s.heap ++ [defaultNewRule]) ++ [defaultNewRule], s.defaultNewRuleAddr,
        (s.heap.length + 1) :: (s.heap.length :: s.ruleRefs)⟩ := by
    rw [htop]
    unfold addNewRuleToTop
    rw [hclone1]
  refine ⟨?_, ?_, by rw [htop2], hlt, fun hmem => by have := hrefs _ hmem; omega, ?_⟩
  · rw [htop]
    unfold derefRules readRuleCell
    simp only [List.filterMap_cons]
    rw [List.getElem?_concat_length]
    simp only [Option.toList]
    rw [filterMap_getElem_append s.heap [defaultNewRule] s.ruleRefs hrefs]
  · rw [hbot]
    unfold derefRules readRuleCell
    rw [List.filterMap_append]
    rw [filterMap_getElem_append s.heap [defaultNewRule] s.ruleRefs hrefs]
    simp
  · intro r
    rw [htop2]
    unfold writeRuleCell readRuleCell
    refine ⟨?_, ?_, ?_⟩
    · rw [List.getElem?_set_self (by simp)]
    · rw [List.getElem?_set_ne (by omega)]
      have hlen : ((s.heap ++ [defaultNewRule])).length = s.heap.length + 1 := by simp
      rw [List.getElem?_append]
      simp
    · rw [List.getElem?_set_ne (by omega)]
      show ((s.heap ++ [defaultNewRule]) ++ [defaultNewRule])[s.defaultNewRuleAddr]? =
        some defaultNewRule
      have hlen2 : s.defaultNewRuleAddr < (s.heap ++ [defaultNewRule]).length := by
        simp only [List.length_append, List.length_cons, List.length_nil]
        omega
      rw [List.getElem?_append]
      simp only [hlen2, if_pos]
      exact hdef1

/-- Witness for C5 at a concrete well-formed heap state. -/
theorem addNewRule_spec_witness :
    wfTabHeap tabW ∧ derefRules (addNewRuleToTop tabW) = [defaultNewRule] :=
  ⟨by decide, (addNewRule_spec tabW (by decide)).1⟩
